import Mathlib

/-!
Verification of the FastAPI-FullStack repository's cached configuration store
and of the frontend `EnvService` contract.

The repository ships only the frontend (`src/frontend/app/src/client/envService.ts`,
the environment-variable admin page, the sidebar and the route guard); the backend
Config Service / Durable Store / Cache Layer is specified in `spec.md` §2–§5 but its
implementation is not part of the source. The backend definitions below are therefore
modelled from the spec; the frontend definitions are translated from the TypeScript
source.
-/

namespace FullStack

/-- Modelled from the spec: `ConfigEntry` (§3) — key (immutable), value, optional
description, and two timestamps. Timestamps are modelled as naturals read off a
logical clock. The backend holding this type is not part of the source. -/
structure ConfigEntry where
  key : String
  value : String
  description : Option String
  created_at : Nat
  updated_at : Nat
deriving DecidableEq, Repr

/-- Modelled from the spec: the patch argument of `update(key, {value?, description?})`
(§4.1). An omitted field is `none`; `description := some none` sets the description
to null. -/
structure ConfigPatch where
  value : Option String
  description : Option (Option String)
deriving DecidableEq, Repr

/-- Modelled from the spec: the error taxonomy relevant to the claims (§7) —
`NotFoundError` and a Durable Store write failure. -/
inductive ConfigError
  | notFound
  | storeFailure
deriving DecidableEq, Repr

/-- Key lookup in a list of entries (first match). -/
def lookupByKey (l : List ConfigEntry) (k : String) : Option ConfigEntry :=
  l.find? (fun e => e.key == k)

/-- Drop every entry whose key is `k`. -/
def removeByKey (l : List ConfigEntry) (k : String) : List ConfigEntry :=
  l.filter (fun e => e.key != k)

/-- Modelled from the spec: Durable Store `get(key) -> ConfigEntry | NotFound` (§4.1). -/
def storeGet (store : List ConfigEntry) (k : String) : Option ConfigEntry :=
  lookupByKey store k

/-- Modelled from the spec: the Durable Store row replacement performed by
`update` (§4.1); the row keyed `k` is replaced by `e'`, all other rows kept. -/
def storePut (store : List ConfigEntry) (k : String) (e' : ConfigEntry) :
    List ConfigEntry :=
  store.map (fun e => if e.key == k then e' else e)

/-- Modelled from the spec: Cache Layer `get(key) -> ConfigEntry | Miss` (§4.2). -/
def cacheGet (cache : List ConfigEntry) (k : String) : Option ConfigEntry :=
  lookupByKey cache k

/-- Modelled from the spec: Cache Layer `put(key, entry)` — overwrite (§4.2). -/
def cachePut (cache : List ConfigEntry) (k : String) (e : ConfigEntry) :
    List ConfigEntry :=
  e :: removeByKey cache k

/-- Modelled from the spec: Cache Layer `invalidate(key)` — remove the entry,
forcing the next read to repopulate from the Durable Store (§4.2). -/
def cacheInvalidate (cache : List ConfigEntry) (k : String) : List ConfigEntry :=
  removeByKey cache k

/-- Modelled from the spec: the patch application of `update` — omitted fields
unchanged, `updated_at` set to the current time (§4.1). -/
def applyPatch (e : ConfigEntry) (p : ConfigPatch) (now : Nat) : ConfigEntry :=
  { e with
    value := p.value.getD e.value
    description := p.description.getD e.description
    updated_at := now }

/-- Modelled from the spec: the state the Config Service coordinates — the Durable
Store table, the in-memory Cache Layer, and a logical clock supplying "current
time" (strictly increasing across writes). -/
structure ServiceState where
  store : List ConfigEntry
  cache : List ConfigEntry
  clock : Nat
deriving DecidableEq, Repr

/-- Modelled from the spec: Config Service `get(key)` (§4.3): check the Cache
Layer; on miss read the Durable Store, populate the cache and return the value;
fail with `NotFoundError` if absent in the Durable Store. -/
def svcGet (s : ServiceState) (k : String) :
    Except ConfigError ConfigEntry × ServiceState :=
  match cacheGet s.cache k with
  | some e => (.ok e, s)
  | none =>
    match storeGet s.store k with
    | none => (.error .notFound, s)
    | some e => (.ok e, { s with cache := cachePut s.cache k e })

/-- Modelled from the spec: Config Service `update(key, patch)` (§4.3), the
write-then-invalidate protocol. `storeFails` models a Durable Store write
failure: the write is atomic per key, so on failure no state changes and the
error is surfaced. On success the durable row is replaced and the cache entry
for `key` is invalidated (not overwritten). -/
def svcUpdate (storeFails : Bool) (s : ServiceState) (k : String) (p : ConfigPatch) :
    Except ConfigError ConfigEntry × ServiceState :=
  match storeGet s.store k with
  | none => (.error .notFound, s)
  | some e =>
    if storeFails then (.error .storeFailure, s)
    else
      let now := s.clock + 1
      let e' := applyPatch e p now
      (.ok e',
        { store := storePut s.store k e'
          cache := cacheInvalidate s.cache k
          clock := now })

/-- Modelled from the spec: the cache is fully populated when it holds an entry
for every Durable Store key (§4.3 `listAll`). -/
def fullyPopulated (cache store : List ConfigEntry) : Bool :=
  store.all (fun e => (cacheGet cache e.key).isSome)

/-- Modelled from the spec: Config Service `listAll()` (§4.3): return the Cache
Layer contents if fully populated; otherwise load the full set from the Durable
Store, populate the Cache Layer, and return it. -/
def svcListAll (s : ServiceState) :
    Except ConfigError (List ConfigEntry) × ServiceState :=
  if fullyPopulated s.cache s.store then (.ok s.cache, s)
  else (.ok s.store, { s with cache := s.store })

/-- Key uniqueness, enforced by the Durable Store (§3). -/
def keysNodup (store : List ConfigEntry) : Prop :=
  (store.map (fun e => e.key)).Nodup

/-- The Config Service invariant: Durable Store keys are unique, every cache
entry agrees exactly with the Durable Store row for its key, and all timestamps
are well-formed and bounded by the clock. -/
def Inv (s : ServiceState) : Prop :=
  keysNodup s.store ∧
  (∀ c ∈ s.cache, storeGet s.store c.key = some c) ∧
  (∀ e ∈ s.store, e.created_at ≤ e.updated_at ∧ e.updated_at ≤ s.clock)

instance (s : ServiceState) : Decidable (Inv s) := by
  unfold Inv keysNodup; infer_instance

/-- Modelled from the spec: entries are created out-of-band as a seed (§3
lifecycle), with `created_at` set at creation, before any update; the cache
starts empty. -/
def seeded (s : ServiceState) : Prop :=
  keysNodup s.store ∧ s.cache = [] ∧
  ∀ e ∈ s.store, e.created_at = e.updated_at ∧ e.updated_at ≤ s.clock

instance (s : ServiceState) : Decidable (seeded s) := by
  unfold seeded keysNodup; infer_instance

/-- One Config Service operation, as a step relation on service states;
`update` steps include runs where the Durable Store write fails. -/
inductive SvcStep : ServiceState → ServiceState → Prop
  | get (s : ServiceState) (k : String) : SvcStep s (svcGet s k).2
  | update (s : ServiceState) (b : Bool) (k : String) (p : ConfigPatch) :
      SvcStep s (svcUpdate b s k p).2
  | listAll (s : ServiceState) : SvcStep s (svcListAll s).2

/-- A state reachable from a seeded initial state through Config Service
operations. -/
def Reachable (s0 s : ServiceState) : Prop :=
  Relation.ReflTransGen SvcStep s0 s

/-! ### Frontend contract, from `src/frontend/app/src/client/envService.ts` -/

/-- The `EnvVariable` TypeScript type. JSON optionality is modelled as
`Option (Option String)` for `description?: string | null`: the outer `none`
means the field is omitted, `some none` means the field is `null`, and
`some (some s)` means the field is the string `s`. Timestamps are plain
strings in the contract. -/
structure EnvVariable where
  key : String
  value : String
  description : Option (Option String)
  created_at : String
  updated_at : String
deriving DecidableEq, Repr

/-- The `EnvVariableListResponse` TypeScript type: `{ total: number, items: EnvVariable[] }`. -/
structure EnvVariableListResponse where
  total : Int
  items : List EnvVariable
deriving DecidableEq, Repr

/-- The `EnvVariableUpdate` TypeScript type: `{ value?: string, description?: string | null }`,
with the same optionality encoding as `EnvVariable.description`. -/
structure EnvVariableUpdate where
  value : Option String
  description : Option (Option String)
deriving DecidableEq, Repr

/-- The options `EnvService` passes to `__request`: HTTP method, URL template,
path parameters, optional JSON body, media type, and the declared 404 error
message (when present). -/
structure EnvRequest where
  method : String
  url : String
  pathParams : List (String × String)
  body : Option EnvVariableUpdate
  mediaType : Option String
  error404 : Option String
deriving DecidableEq, Repr

/-- `EnvService.listEnvVariables`: `GET /api/env`, no body, no declared errors. -/
def EnvService.listEnvVariables : EnvRequest :=
  { method := "GET"
    url := "/api/env"
    pathParams := []
    body := none
    mediaType := none
    error404 := none }

/-- `EnvService.updateEnvVariable`: `PUT /api/env/{key}` with the path parameter
`key`, a JSON `EnvVariableUpdate` body, and a declared 404 error message. -/
def EnvService.updateEnvVariable (key : String) (requestBody : EnvVariableUpdate) :
    EnvRequest :=
  { method := "PUT"
    url := "/api/env/{key}"
    pathParams := [("key", key)]
    body := some requestBody
    mediaType := some "application/json"
    error404 := some "Environment variable not found" }

/-- The `ConfigEntry` JSON shape exactly as the spec's §6 table words it:
`{ key: string, value: string, description: string|null, created_at: ISO8601
string, updated_at: ISO8601 string }` — the `description` field is always
present (`none` models JSON `null`). Used to compare the spec's HTTP surface
with the frontend contract. -/
structure SpecConfigEntryJson where
  key : String
  value : String
  description : Option String
  created_at : String
  updated_at : String
deriving DecidableEq, Repr

/-- A spec-shaped `ConfigEntry` read as a frontend `EnvVariable`: the
`description` field is present, so it maps to `some`. -/
def specToFrontend (e : SpecConfigEntryJson) : EnvVariable :=
  { key := e.key
    value := e.value
    description := some e.description
    created_at := e.created_at
    updated_at := e.updated_at }

/-- A frontend `EnvVariable` read back as a spec-shaped `ConfigEntry`; fails
(`none`) exactly when the `description` field is omitted, which the spec's
shape does not allow. -/
def frontendToSpec (e : EnvVariable) : Option SpecConfigEntryJson :=
  match e.description with
  | none => none
  | some d =>
    some { key := e.key
           value := e.value
           description := d
           created_at := e.created_at
           updated_at := e.updated_at }

/-! ### Environment-variables admin page, from
`src/components/UserSettings/EnvironmentVariables.tsx` (src/unnamed/part_004) -/

/-- The payload `saveEdit` hands to `mutation.mutate`:
`{ key: string; value?: string; description?: string }`. -/
structure MutationPayload where
  key : String
  value : Option String
  description : Option String
deriving DecidableEq, Repr

/-- The page's `mutationFn`: builds the request body with
`value: payload.value` and `description: payload.description ?? null` — the
`?? null` coalescing makes the `description` field always present (explicit
`null` when the payload omitted it). -/
def mutationFn (payload : MutationPayload) : EnvRequest :=
  EnvService.updateEnvVariable payload.key
    { value := payload.value
      description := some payload.description }

/-- The JavaScript `String.prototype.trim()` used by `saveEdit`: drop leading
and trailing whitespace. -/
def jsTrim (s : String) : String :=
  String.mk (((s.data.dropWhile Char.isWhitespace).reverse.dropWhile
    Char.isWhitespace).reverse)

/-- The page's `saveEdit` handler: returns early when no row is being edited;
otherwise mutates with the draft value, and with the draft description mapped
to `undefined` when it is blank after trimming
(`draftDescription.trim() === "" ? undefined : draftDescription`). -/
def saveEdit (editingKey : Option String) (draftValue draftDescription : String) :
    Option MutationPayload :=
  match editingKey with
  | none => none
  | some k =>
    some { key := k
           value := some draftValue
           description :=
             if jsTrim draftDescription = "" then none else some draftDescription }

/-! ### Route guard and sidebar, from
`src/frontend/app/src/routes/_layout/admin/env.tsx` and `SidebarItems`
(src/unnamed/part_002) -/

/-- The part of the `UserPublic` client type the admin routes read; only the
`is_superuser` flag is consulted (the remaining fields of the generated client
type play no role in these claims). -/
structure UserPublic where
  is_superuser : Bool
deriving DecidableEq, Repr

/-- Whether `currentUser?.is_superuser` is truthy: false when the user is not
yet loaded (`undefined`) and when the flag is false. -/
def superuserLoaded (currentUser : Option UserPublic) : Bool :=
  (currentUser.map (fun u => u.is_superuser)).getD false

/-- What the `/admin/env` route component renders. -/
inductive AdminEnvRender
  | nullRender
  | page
deriving DecidableEq, Repr

/-- The navigation side effect of the `/admin/env` route component's effect hook. -/
inductive NavEffect
  | noNav
  | replaceTo (path : String)
deriving DecidableEq, Repr

/-- `AdminEnvironmentVariables` render body:
`if (!currentUser?.is_superuser) return null`, else render the page. -/
def adminEnvComponent (currentUser : Option UserPublic) : AdminEnvRender :=
  if superuserLoaded currentUser then .page else .nullRender

/-- `AdminEnvironmentVariables` effect:
`if (currentUser && !currentUser.is_superuser) navigate({ to: "/settings", replace: true })`. -/
def adminEnvEffect (currentUser : Option UserPublic) : NavEffect :=
  match currentUser with
  | some u => if u.is_superuser then .noNav else .replaceTo "/settings"
  | none => .noNav

/-- A sidebar item: icon component name, title, and route path. -/
structure SidebarItem where
  icon : String
  title : String
  path : String
deriving DecidableEq, Repr

/-- `baseItems` from `SidebarItems`. -/
def baseItems : List SidebarItem :=
  [⟨"FiSettings", "사용자 설정", "/settings"⟩]

/-- `adminItems` from `SidebarItems`. -/
def adminItems : List SidebarItem :=
  [⟨"FiUsers", "사용자 관리", "/admin"⟩, ⟨"FiDatabase", "환경 변수", "/admin/env"⟩]

/-- `finalItems` from `SidebarItems`:
`currentUser?.is_superuser ? [...adminItems, ...baseItems] : baseItems`. -/
def finalItems (currentUser : Option UserPublic) : List SidebarItem :=
  if superuserLoaded currentUser then adminItems ++ baseItems else baseItems

/-! ### Lookup and replacement lemmas -/

theorem lookupByKey_some_key {l : List ConfigEntry} {k : String} {e : ConfigEntry}
    (h : lookupByKey l k = some e) : e.key = k := by
  have hp := List.find?_some h
  exact eq_of_beq hp

theorem lookupByKey_mem {l : List ConfigEntry} {k : String} {e : ConfigEntry}
    (h : lookupByKey l k = some e) : e ∈ l :=
  List.mem_of_find?_eq_some h

theorem lookupByKey_of_mem {l : List ConfigEntry} {c : ConfigEntry}
    (hnd : (l.map (fun e => e.key)).Nodup) (hc : c ∈ l) :
    lookupByKey l c.key = some c := by
  induction l with
  | nil => cases hc
  | cons a t ih =>
    rcases List.mem_cons.mp hc with rfl | hct
    · rw [lookupByKey, List.find?_cons_of_pos _ (by simp)]
    · have hne : a.key ≠ c.key := by
        intro hkey
        apply (List.nodup_cons.mp hnd).1
        show a.key ∈ t.map (fun e => e.key)
        rw [hkey]
        exact List.mem_map_of_mem (fun e => e.key) hct
      rw [lookupByKey, List.find?_cons_of_neg _ (by simp [hne])]
      exact ih (List.nodup_cons.mp hnd).2 hct

theorem lookupByKey_remove_self (l : List ConfigEntry) (k : String) :
    lookupByKey (removeByKey l k) k = none := by
  rw [lookupByKey, List.find?_eq_none]
  intro e he
  have hne : e.key ≠ k := by simpa using (List.mem_filter.mp he).2
  simp [hne]

theorem lookupByKey_remove_other {l : List ConfigEntry} {k k' : String} (h : k' ≠ k) :
    lookupByKey (removeByKey l k) k' = lookupByKey l k' := by
  induction l with
  | nil => rfl
  | cons a t ih =>
    by_cases ha : a.key = k
    · have h1 : removeByKey (a :: t) k = removeByKey t k := by
        simp [removeByKey, List.filter_cons, ha]
      have h2 : lookupByKey (a :: t) k' = lookupByKey t k' := by
        rw [lookupByKey, List.find?_cons_of_neg _ (by simp [ha, Ne.symm h])]
        rfl
      rw [h1, h2]; exact ih
    · have h1 : removeByKey (a :: t) k = a :: removeByKey t k := by
        simp [removeByKey, List.filter_cons, ha]
      rw [h1]
      by_cases hk' : a.key = k'
      · rw [lookupByKey, List.find?_cons_of_pos _ (by simp [hk']),
          lookupByKey, List.find?_cons_of_pos _ (by simp [hk'])]
      · rw [lookupByKey, List.find?_cons_of_neg _ (by simp [hk']),
          lookupByKey, List.find?_cons_of_neg _ (by simp [hk'])]
        exact ih

theorem lookupByKey_storePut_self {store : List ConfigEntry} {k : String}
    {e e' : ConfigEntry} (h : storeGet store k = some e) (hk : e'.key = k) :
    storeGet (storePut store k e') k = some e' := by
  induction store with
  | nil => simp [storeGet, lookupByKey] at h
  | cons a t ih =>
    by_cases ha : a.key = k
    · have h1 : storePut (a :: t) k e' = e' :: storePut t k e' := by
        simp [storePut, ha]
      rw [h1, storeGet, lookupByKey, List.find?_cons_of_pos _ (by simp [hk])]
    · have h1 : storePut (a :: t) k e' = a :: storePut t k e' := by
        simp [storePut, ha]
      have h2 : storeGet t k = some e := by
        rw [storeGet, lookupByKey] at h ⊢
        rwa [List.find?_cons_of_neg _ (by simp [ha])] at h
      rw [h1, storeGet, lookupByKey, List.find?_cons_of_neg _ (by simp [ha])]
      exact ih h2

theorem lookupByKey_storePut_other {store : List ConfigEntry} {k k' : String}
    {e' : ConfigEntry} (hk : e'.key = k) (h : k' ≠ k) :
    storeGet (storePut store k e') k' = storeGet store k' := by
  induction store with
  | nil => rfl
  | cons a t ih =>
    by_cases ha : a.key = k
    · have h1 : storePut (a :: t) k e' = e' :: storePut t k e' := by
        simp [storePut, ha]
      rw [h1, storeGet, lookupByKey, List.find?_cons_of_neg _ (by simp [hk, Ne.symm h]),
        storeGet, lookupByKey, List.find?_cons_of_neg _ (by simp [ha, Ne.symm h])]
      exact ih
    · have h1 : storePut (a :: t) k e' = a :: storePut t k e' := by
        simp [storePut, ha]
      rw [h1]
      by_cases hk' : a.key = k'
      · rw [storeGet, lookupByKey, List.find?_cons_of_pos _ (by simp [hk']),
          storeGet, lookupByKey, List.find?_cons_of_pos _ (by simp [hk'])]
      · rw [storeGet, lookupByKey, List.find?_cons_of_neg _ (by simp [hk']),
          storeGet, lookupByKey, List.find?_cons_of_neg _ (by simp [hk'])]
        exact ih

theorem keysNodup_storePut {store : List ConfigEntry} {k : String} {e' : ConfigEntry}
    (hk : e'.key = k) (hnd : keysNodup store) : keysNodup (storePut store k e') := by
  have hmap : (storePut store k e').map (fun e => e.key)
      = store.map (fun e => e.key) := by
    rw [storePut, List.map_map]
    refine List.map_congr_left ?_
    intro a _
    by_cases ha : a.key = k
    · simp [Function.comp, ha, hk]
    · simp [Function.comp, ha]
  rw [keysNodup, hmap]
  exact hnd

theorem mem_storePut {store : List ConfigEntry} {k : String} {e' x : ConfigEntry}
    (hx : x ∈ storePut store k e') : x = e' ∨ x ∈ store := by
  rw [storePut] at hx
  obtain ⟨a, ha, hax⟩ := List.mem_map.mp hx
  by_cases h : a.key = k
  · left; simpa [h] using hax.symm
  · right; rw [if_neg (by simp [h])] at hax; exact hax ▸ ha

theorem mem_removeByKey {l : List ConfigEntry} {k : String} {x : ConfigEntry}
    (hx : x ∈ removeByKey l k) : x ∈ l :=
  (List.mem_filter.mp hx).1

theorem key_ne_of_mem_removeByKey {l : List ConfigEntry} {k : String} {x : ConfigEntry}
    (hx : x ∈ removeByKey l k) : x.key ≠ k := by
  simpa using (List.mem_filter.mp hx).2

theorem mem_cachePut {cache : List ConfigEntry} {k : String} {e x : ConfigEntry}
    (hx : x ∈ cachePut cache k e) : x = e ∨ x ∈ cache := by
  rcases List.mem_cons.mp hx with rfl | hmem
  · exact Or.inl rfl
  · exact Or.inr (mem_removeByKey hmem)

theorem cacheGet_cachePut_self {cache : List ConfigEntry} {k : String}
    {e : ConfigEntry} (hk : e.key = k) : cacheGet (cachePut cache k e) k = some e := by
  rw [cacheGet, cachePut, lookupByKey, List.find?_cons_of_pos _ (by simp [hk])]

theorem cacheGet_cacheInvalidate_self (cache : List ConfigEntry) (k : String) :
    cacheGet (cacheInvalidate cache k) k = none :=
  lookupByKey_remove_self cache k

/-! ### Invariant preservation -/

theorem inv_svcGet (s : ServiceState) (k : String) (h : Inv s) : Inv (svcGet s k).2 := by
  obtain ⟨hnd, hcc, hts⟩ := h
  cases hc : cacheGet s.cache k with
  | some e => simpa [svcGet, hc] using ⟨hnd, hcc, hts⟩
  | none =>
    cases hs : storeGet s.store k with
    | none => simpa [svcGet, hc, hs] using ⟨hnd, hcc, hts⟩
    | some e =>
      have hek : e.key = k := lookupByKey_some_key hs
      simp only [svcGet, hc, hs]
      refine ⟨hnd, ?_, hts⟩
      intro c hcmem
      rcases mem_cachePut hcmem with rfl | hold
      · rw [hek]; exact hs
      · exact hcc c hold

theorem inv_svcUpdate (b : Bool) (s : ServiceState) (k : String) (p : ConfigPatch)
    (h : Inv s) : Inv (svcUpdate b s k p).2 := by
  obtain ⟨hnd, hcc, hts⟩ := h
  cases hs : storeGet s.store k with
  | none => simpa [svcUpdate, hs] using ⟨hnd, hcc, hts⟩
  | some e =>
    cases b with
    | true => simpa [svcUpdate, hs] using ⟨hnd, hcc, hts⟩
    | false =>
      have hek : e.key = k := lookupByKey_some_key hs
      have hk' : (applyPatch e p (s.clock + 1)).key = k := hek
      have hemem : e ∈ s.store := lookupByKey_mem hs
      simp only [svcUpdate, hs, if_neg Bool.false_ne_true]
      refine ⟨keysNodup_storePut hk' hnd, ?_, ?_⟩
      · intro c hcmem
        have hcne : c.key ≠ k := key_ne_of_mem_removeByKey hcmem
        have hcold : c ∈ s.cache := mem_removeByKey hcmem
        calc storeGet (storePut s.store k (applyPatch e p (s.clock + 1))) c.key
            = storeGet s.store c.key := lookupByKey_storePut_other hk' hcne
          _ = some c := hcc c hcold
      · intro x hx
        rcases mem_storePut hx with rfl | hold
        · have := hts e hemem
          constructor
          · show e.created_at ≤ s.clock + 1
            omega
          · show s.clock + 1 ≤ s.clock + 1
            omega
        · have hb := hts x hold
          refine ⟨hb.1, ?_⟩
          show x.updated_at ≤ s.clock + 1
          omega

theorem inv_svcListAll (s : ServiceState) (h : Inv s) : Inv (svcListAll s).2 := by
  obtain ⟨hnd, hcc, hts⟩ := h
  by_cases hf : fullyPopulated s.cache s.store = true
  · simpa [svcListAll, hf] using ⟨hnd, hcc, hts⟩
  · simp only [svcListAll, hf, if_false, if_neg hf]
    exact ⟨hnd, fun c hc => lookupByKey_of_mem hnd hc, hts⟩

theorem inv_step {s s' : ServiceState} (h : Inv s) (hst : SvcStep s s') : Inv s' := by
  cases hst with
  | get k => exact inv_svcGet s k h
  | update b k p => exact inv_svcUpdate b s k p h
  | listAll => exact inv_svcListAll s h

theorem inv_of_seeded {s : ServiceState} (h : seeded s) : Inv s := by
  obtain ⟨hnd, hc, hts⟩ := h
  refine ⟨hnd, ?_, fun e he => ⟨(hts e he).1.le, (hts e he).2⟩⟩
  intro c hcmem
  rw [hc] at hcmem
  cases hcmem

theorem inv_reachable {s0 s : ServiceState} (h0 : seeded s0) (hr : Reachable s0 s) :
    Inv s := by
  induction hr with
  | refl => exact inv_of_seeded h0
  | tail _ hstep ih => exact inv_step ih hstep

theorem applyPatch_key (e : ConfigEntry) (p : ConfigPatch) (n : Nat) :
    (applyPatch e p n).key = e.key := rfl

theorem applyPatch_value_some (e : ConfigEntry) (v : String)
    (d : Option (Option String)) (n : Nat) :
    (applyPatch e ⟨some v, d⟩ n).value = v := rfl

/-! ### Claim theorems -/

/-- C1: for every key present in the store and every valid value and
description, `update(key, {value, description})` followed by `get(key)` returns
that same value and that same description, and the entry's `updated_at` after
the update is strictly greater than it was before. -/
theorem update_get_round_trip (s : ServiceState) (k v : String) (d : Option String)
    (e0 : ConfigEntry) (hinv : Inv s) (h0 : storeGet s.store k = some e0) :
    ∃ e1 : ConfigEntry,
      (svcUpdate false s k ⟨some v, some d⟩).1 = .ok e1 ∧
      (svcGet (svcUpdate false s k ⟨some v, some d⟩).2 k).1 = .ok e1 ∧
      e1.value = v ∧ e1.description = d ∧ e0.updated_at < e1.updated_at := by
  obtain ⟨hnd, hcc, hts⟩ := hinv
  have hek : e0.key = k := lookupByKey_some_key h0
  refine ⟨applyPatch e0 ⟨some v, some d⟩ (s.clock + 1), ?_, ?_, rfl, rfl, ?_⟩
  · simp [svcUpdate, h0]
  · have hcnone : cacheGet (cacheInvalidate s.cache k) k = none :=
      cacheGet_cacheInvalidate_self s.cache k
    have hsput : storeGet
        (storePut s.store k (applyPatch e0 ⟨some v, some d⟩ (s.clock + 1))) k
        = some (applyPatch e0 ⟨some v, some d⟩ (s.clock + 1)) :=
      lookupByKey_storePut_self h0 hek
    simp [svcUpdate, h0, svcGet, hcnone, hsput]
  · have hb := hts e0 (lookupByKey_mem h0)
    show e0.updated_at < s.clock + 1
    omega

theorem update_get_round_trip_witness :
    ∃ e1 : ConfigEntry,
      (svcUpdate false ⟨[⟨"FEATURE_X", "off", some "toggle", 0, 0⟩], [], 0⟩
          "FEATURE_X" ⟨some "on", some (some "toggle")⟩).1 = .ok e1 ∧
      (svcGet (svcUpdate false ⟨[⟨"FEATURE_X", "off", some "toggle", 0, 0⟩], [], 0⟩
          "FEATURE_X" ⟨some "on", some (some "toggle")⟩).2 "FEATURE_X").1 = .ok e1 ∧
      e1.value = "on" ∧ e1.description = some "toggle" ∧
      (⟨"FEATURE_X", "off", some "toggle", 0, 0⟩ : ConfigEntry).updated_at
        < e1.updated_at :=
  update_get_round_trip ⟨[⟨"FEATURE_X", "off", some "toggle", 0, 0⟩], [], 0⟩
    "FEATURE_X" "on" (some "toggle") ⟨"FEATURE_X", "off", some "toggle", 0, 0⟩
    (by decide) (by decide)

/-- C2: `update` is atomic with respect to failure — if the Durable Store write
fails, the state (store and cache alike) is left unchanged and the error is
surfaced to the caller; on success the cache entry for the key is invalidated
(absent afterwards) rather than overwritten with the new value. -/
theorem update_failure_atomicity (s : ServiceState) (k : String) (p : ConfigPatch)
    (e0 : ConfigEntry) (h0 : storeGet s.store k = some e0) :
    (svcUpdate true s k p).2 = s ∧
    (svcUpdate true s k p).1 = .error .storeFailure ∧
    cacheGet (svcUpdate false s k p).2.cache k = none := by
  refine ⟨by simp [svcUpdate, h0], by simp [svcUpdate, h0], ?_⟩
  have hc : (svcUpdate false s k p).2.cache = cacheInvalidate s.cache k := by
    simp [svcUpdate, h0]
  rw [hc]
  exact cacheGet_cacheInvalidate_self s.cache k

theorem update_failure_atomicity_witness :
    (svcUpdate true ⟨[⟨"K", "a", none, 0, 0⟩], [⟨"K", "a", none, 0, 0⟩], 1⟩ "K"
        ⟨some "b", none⟩).2
      = ⟨[⟨"K", "a", none, 0, 0⟩], [⟨"K", "a", none, 0, 0⟩], 1⟩ ∧
    (svcUpdate true ⟨[⟨"K", "a", none, 0, 0⟩], [⟨"K", "a", none, 0, 0⟩], 1⟩ "K"
        ⟨some "b", none⟩).1 = .error .storeFailure ∧
    cacheGet (svcUpdate false ⟨[⟨"K", "a", none, 0, 0⟩], [⟨"K", "a", none, 0, 0⟩], 1⟩
        "K" ⟨some "b", none⟩).2.cache "K" = none :=
  update_failure_atomicity ⟨[⟨"K", "a", none, 0, 0⟩], [⟨"K", "a", none, 0, 0⟩], 1⟩
    "K" ⟨some "b", none⟩ ⟨"K", "a", none, 0, 0⟩ (by decide)

/-- C3: for every key absent from the Durable Store, both `get(key)` and
`update(key, patch)` fail with `NotFoundError` and neither changes any state;
the PUT request the frontend issues for updates declares the 404 error surface. -/
theorem missing_key_not_found (s : ServiceState) (k : String) (p : ConfigPatch)
    (b : Bool) (u : EnvVariableUpdate) (hinv : Inv s)
    (habs : storeGet s.store k = none) :
    svcGet s k = (.error .notFound, s) ∧
    svcUpdate b s k p = (.error .notFound, s) ∧
    (EnvService.updateEnvVariable k u).error404
      = some "Environment variable not found" := by
  have hcache : cacheGet s.cache k = none := by
    cases hc : cacheGet s.cache k with
    | none => rfl
    | some c =>
      have h1 := hinv.2.1 c (lookupByKey_mem hc)
      rw [lookupByKey_some_key hc, habs] at h1
      cases h1
  exact ⟨by simp [svcGet, hcache, habs], by simp [svcUpdate, habs], rfl⟩

theorem missing_key_not_found_witness :
    svcGet ⟨[⟨"K", "a", none, 0, 0⟩], [], 0⟩ "missing-key"
      = (.error .notFound, ⟨[⟨"K", "a", none, 0, 0⟩], [], 0⟩) ∧
    svcUpdate false ⟨[⟨"K", "a", none, 0, 0⟩], [], 0⟩ "missing-key" ⟨some "x", none⟩
      = (.error .notFound, ⟨[⟨"K", "a", none, 0, 0⟩], [], 0⟩) ∧
    (EnvService.updateEnvVariable "missing-key" ⟨some "x", none⟩).error404
      = some "Environment variable not found" :=
  missing_key_not_found ⟨[⟨"K", "a", none, 0, 0⟩], [], 0⟩ "missing-key"
    ⟨some "x", none⟩ false ⟨some "x", none⟩ (by decide) (by decide)

/-- C4: `update` is a partial patch — any field omitted from the patch is
unchanged (in particular a value-only patch leaves `description` unchanged),
and the key field is never changed by an update. -/
theorem update_patch_frame (s : ServiceState) (k : String) (p : ConfigPatch)
    (e0 e1 : ConfigEntry) (h0 : storeGet s.store k = some e0)
    (h1 : (svcUpdate false s k p).1 = .ok e1) :
    e1.key = e0.key ∧
    (p.value = none → e1.value = e0.value) ∧
    (p.description = none → e1.description = e0.description) := by
  have he1 : e1 = applyPatch e0 p (s.clock + 1) := by
    simp [svcUpdate, h0] at h1
    exact h1.symm
  subst he1
  refine ⟨rfl, ?_, ?_⟩
  · intro hv; simp [applyPatch, hv]
  · intro hd; simp [applyPatch, hd]

theorem update_patch_frame_witness :
    (⟨"K", "x", some "keep", 0, 1⟩ : ConfigEntry).key
        = (⟨"K", "a", some "keep", 0, 0⟩ : ConfigEntry).key ∧
    ((⟨some "x", none⟩ : ConfigPatch).value = none →
      (⟨"K", "x", some "keep", 0, 1⟩ : ConfigEntry).value
        = (⟨"K", "a", some "keep", 0, 0⟩ : ConfigEntry).value) ∧
    ((⟨some "x", none⟩ : ConfigPatch).description = none →
      (⟨"K", "x", some "keep", 0, 1⟩ : ConfigEntry).description
        = (⟨"K", "a", some "keep", 0, 0⟩ : ConfigEntry).description) :=
  update_patch_frame ⟨[⟨"K", "a", some "keep", 0, 0⟩], [], 0⟩ "K" ⟨some "x", none⟩
    ⟨"K", "a", some "keep", 0, 0⟩ ⟨"K", "x", some "keep", 0, 1⟩ (by decide) rfl

/-- C5: invariant preserved by every Config Service operation — in every state
reachable from a seeded initial state, the cache entry for each key is either
absent or exactly the Durable Store row for that key (the row produced by the
last acknowledged write). -/
theorem cache_never_stale (s0 s : ServiceState) (k : String)
    (hseed : seeded s0) (hreach : Reachable s0 s) :
    cacheGet s.cache k = none ∨ cacheGet s.cache k = storeGet s.store k := by
  have hinv := inv_reachable hseed hreach
  cases hc : cacheGet s.cache k with
  | none => exact Or.inl rfl
  | some c =>
    right
    have h1 := hinv.2.1 c (lookupByKey_mem hc)
    rw [lookupByKey_some_key hc] at h1
    exact h1.symm

theorem cache_never_stale_witness :
    cacheGet (⟨[⟨"K", "a", none, 0, 0⟩], [], 0⟩ : ServiceState).cache "K" = none ∨
    cacheGet (⟨[⟨"K", "a", none, 0, 0⟩], [], 0⟩ : ServiceState).cache "K"
      = storeGet (⟨[⟨"K", "a", none, 0, 0⟩], [], 0⟩ : ServiceState).store "K" :=
  cache_never_stale ⟨[⟨"K", "a", none, 0, 0⟩], [], 0⟩
    ⟨[⟨"K", "a", none, 0, 0⟩], [], 0⟩ "K" (by decide) .refl

/-- C6: two `update` calls for the same key, serialized at the Durable Store in
either order (the spec's per-key write serialization), leave exactly the
last-committed value in the store — one of the two written values — the cache
entry invalidated after both complete, and any subsequent read returns the
store's final value and re-populates the cache with exactly that value. -/
theorem concurrent_updates_last_wins (s s1 s2 : ServiceState) (k v1 v2 va vb : String)
    (e0 : ConfigEntry) (h0 : storeGet s.store k = some e0)
    (horder : (va = v1 ∧ vb = v2) ∨ (va = v2 ∧ vb = v1))
    (hs1 : s1 = (svcUpdate false s k ⟨some va, none⟩).2)
    (hs2 : s2 = (svcUpdate false s1 k ⟨some vb, none⟩).2) :
    ∃ ef : ConfigEntry,
      storeGet s2.store k = some ef ∧
      ef.value = vb ∧
      (ef.value = v1 ∨ ef.value = v2) ∧
      cacheGet s2.cache k = none ∧
      (svcGet s2 k).1 = .ok ef ∧
      cacheGet (svcGet s2 k).2.cache k = some ef := by
  have hek : e0.key = k := lookupByKey_some_key h0
  have hs1' : s1 = { store := storePut s.store k (applyPatch e0 ⟨some va, none⟩ (s.clock + 1))
                     cache := cacheInvalidate s.cache k
                     clock := s.clock + 1 } := by
    rw [hs1]; simp [svcUpdate, h0]
  have h0' : storeGet s1.store k
      = some (applyPatch e0 ⟨some va, none⟩ (s.clock + 1)) := by
    rw [hs1']; exact lookupByKey_storePut_self h0 hek
  obtain ⟨ef, hef⟩ : ∃ ef, ef = applyPatch (applyPatch e0 ⟨some va, none⟩ (s.clock + 1))
      ⟨some vb, none⟩ (s1.clock + 1) := ⟨_, rfl⟩
  have hefk : ef.key = k := by rw [hef]; exact hek
  have hefv : ef.value = vb := by rw [hef]; rfl
  have hs2' : s2 = { store := storePut s1.store k ef
                     cache := cacheInvalidate s1.cache k
                     clock := s1.clock + 1 } := by
    rw [hs2, hef]; simp [svcUpdate, h0']
  have hst : storeGet s2.store k = some ef := by
    rw [hs2']; exact lookupByKey_storePut_self h0' hefk
  have hca : cacheGet s2.cache k = none := by
    rw [hs2']; exact cacheGet_cacheInvalidate_self s1.cache k
  have hget2 : (svcGet s2 k).2.cache = cachePut s2.cache k ef := by
    simp [svcGet, hca, hst]
  refine ⟨ef, hst, hefv, ?_, hca, ?_, ?_⟩
  · rcases horder with ⟨_, hb⟩ | ⟨_, hb⟩
    · exact Or.inr (hb ▸ hefv)
    · exact Or.inl (hb ▸ hefv)
  · simp [svcGet, hca, hst]
  · rw [hget2]; exact cacheGet_cachePut_self hefk

theorem concurrent_updates_last_wins_witness :
    ∃ ef : ConfigEntry,
      storeGet (⟨[⟨"K", "y", none, 0, 2⟩], [], 2⟩ : ServiceState).store "K" = some ef ∧
      ef.value = "y" ∧
      (ef.value = "x" ∨ ef.value = "y") ∧
      cacheGet (⟨[⟨"K", "y", none, 0, 2⟩], [], 2⟩ : ServiceState).cache "K" = none ∧
      (svcGet ⟨[⟨"K", "y", none, 0, 2⟩], [], 2⟩ "K").1 = .ok ef ∧
      cacheGet (svcGet ⟨[⟨"K", "y", none, 0, 2⟩], [], 2⟩ "K").2.cache "K" = some ef :=
  concurrent_updates_last_wins ⟨[⟨"K", "a", none, 0, 0⟩], [], 0⟩
    ⟨[⟨"K", "x", none, 0, 1⟩], [], 1⟩ ⟨[⟨"K", "y", none, 0, 2⟩], [], 2⟩
    "K" "x" "y" "x" "y" ⟨"K", "a", none, 0, 0⟩ (by decide)
    (Or.inl ⟨rfl, rfl⟩) rfl rfl

/-- C8: in every state reachable through Config Service operations from a
seeded initial state, every entry (in the store or the cache) satisfies
`created_at ≤ updated_at`: `created_at` is set once at seeding and every
update sets `updated_at` to the strictly later current time. -/
theorem entry_timestamps_ordered (s0 s : ServiceState) (e : ConfigEntry)
    (hseed : seeded s0) (hreach : Reachable s0 s)
    (he : e ∈ s.store ∨ e ∈ s.cache) : e.created_at ≤ e.updated_at := by
  have hinv := inv_reachable hseed hreach
  rcases he with hs | hc
  · exact (hinv.2.2 e hs).1
  · have h1 := hinv.2.1 e hc
    exact (hinv.2.2 e (lookupByKey_mem h1)).1

theorem entry_timestamps_ordered_witness :
    (⟨"K", "a", none, 3, 3⟩ : ConfigEntry).created_at
      ≤ (⟨"K", "a", none, 3, 3⟩ : ConfigEntry).updated_at :=
  entry_timestamps_ordered ⟨[⟨"K", "a", none, 3, 3⟩], [], 5⟩
    ⟨[⟨"K", "a", none, 3, 3⟩], [], 5⟩ ⟨"K", "a", none, 3, 3⟩
    (by decide) .refl (by decide)

/-- C7 counterexample: the claim says the PUT response is a `ConfigEntry` whose
`description` field is a string or null — i.e. every value of the frontend
response type carries a spec-shaped `ConfigEntry`. It is false: the frontend
type `EnvVariable` declares `description?: string | null`, so the concrete
value with the `description` field omitted is accepted by the frontend
contract but has no spec-shaped counterpart. -/
theorem http_contract_exact_counterexample :
    ¬ ∀ e : EnvVariable, (frontendToSpec e).isSome = true := by
  intro h
  have hx := h ⟨"K", "v", none, "2024-01-01T00:00:00Z", "2024-01-01T00:00:00Z"⟩
  simp [frontendToSpec] at hx

/-- C7 (amended): the HTTP surface matches the frontend contract up to the
optionality of the response's `description` field — `GET /api/env` carries no
body, `PUT /api/env/{key}` carries exactly the `{ value?, description?:
string|null }` body and returns the entry shape; every spec-shaped
`ConfigEntry` is a frontend `EnvVariable`, and every frontend `EnvVariable`
whose `description` field is present is exactly a spec-shaped `ConfigEntry`. -/
theorem http_contract_match (u : EnvVariableUpdate) (eSpec : SpecConfigEntryJson)
    (e : EnvVariable) (d : Option String) (hd : e.description = some d) :
    EnvService.listEnvVariables.method = "GET" ∧
    EnvService.listEnvVariables.url = "/api/env" ∧
    EnvService.listEnvVariables.body = none ∧
    (EnvService.updateEnvVariable eSpec.key u).method = "PUT" ∧
    (EnvService.updateEnvVariable eSpec.key u).url = "/api/env/{key}" ∧
    (EnvService.updateEnvVariable eSpec.key u).body = some u ∧
    frontendToSpec (specToFrontend eSpec) = some eSpec ∧
    (∃ e2 : SpecConfigEntryJson, frontendToSpec e = some e2 ∧ specToFrontend e2 = e) := by
  obtain ⟨ek, ev, eds, ec, eu⟩ := e
  cases hd
  exact ⟨rfl, rfl, rfl, rfl, rfl, rfl, rfl, ⟨ek, ev, d, ec, eu⟩, rfl, rfl⟩

theorem http_contract_match_witness :
    EnvService.listEnvVariables.method = "GET" ∧
    EnvService.listEnvVariables.url = "/api/env" ∧
    EnvService.listEnvVariables.body = none ∧
    (EnvService.updateEnvVariable
        (⟨"K", "v", none, "t0", "t1"⟩ : SpecConfigEntryJson).key
        ⟨some "x", some none⟩).method = "PUT" ∧
    (EnvService.updateEnvVariable
        (⟨"K", "v", none, "t0", "t1"⟩ : SpecConfigEntryJson).key
        ⟨some "x", some none⟩).url = "/api/env/{key}" ∧
    (EnvService.updateEnvVariable
        (⟨"K", "v", none, "t0", "t1"⟩ : SpecConfigEntryJson).key
        ⟨some "x", some none⟩).body = some ⟨some "x", some none⟩ ∧
    frontendToSpec (specToFrontend ⟨"K", "v", none, "t0", "t1"⟩)
      = some ⟨"K", "v", none, "t0", "t1"⟩ ∧
    (∃ e2 : SpecConfigEntryJson,
      frontendToSpec ⟨"L", "w", some (some "desc"), "t0", "t1"⟩ = some e2 ∧
      specToFrontend e2 = ⟨"L", "w", some (some "desc"), "t0", "t1"⟩) :=
  http_contract_match ⟨some "x", some none⟩ ⟨"K", "v", none, "t0", "t1"⟩
    ⟨"L", "w", some (some "desc"), "t0", "t1"⟩ (some "desc") rfl

/-- C9: every update the page's save path issues carries an explicit
`description` field — `saveEdit` maps a blank (all-whitespace) draft
description to `undefined`, and `mutationFn` coalesces `undefined` to `null`,
so the PUT body always holds the current draft value together with a
`description` that is either explicit null or the non-blank draft string; a
blank description box yields null rather than an omitted field. -/
theorem save_edit_description_explicit (editingKey : Option String)
    (draftValue draftDescription : String) (payload : MutationPayload)
    (h : saveEdit editingKey draftValue draftDescription = some payload) :
    ∃ d : Option String,
      (mutationFn payload).body = some ⟨some draftValue, some d⟩ ∧
      (d = none ∨ ∃ str : String, d = some str ∧ jsTrim str ≠ "") ∧
      (jsTrim draftDescription = "" → d = none) := by
  cases editingKey with
  | none => cases h
  | some k =>
    simp only [saveEdit, Option.some.injEq] at h
    subst h
    refine ⟨if jsTrim draftDescription = "" then none else some draftDescription,
      rfl, ?_, ?_⟩
    · by_cases hc : jsTrim draftDescription = ""
      · exact Or.inl (by simp [hc])
      · exact Or.inr ⟨draftDescription, by simp [hc], hc⟩
    · intro hc; simp [hc]

theorem save_edit_description_explicit_witness :
    ∃ d : Option String,
      (mutationFn ⟨"K", some "v", none⟩).body = some ⟨some "v", some d⟩ ∧
      (d = none ∨ ∃ str : String, d = some str ∧ jsTrim str ≠ "") ∧
      (jsTrim "  " = "" → d = none) :=
  save_edit_description_explicit (some "K") "v" "  " ⟨"K", some "v", none⟩ (by decide)

/-- C10: the environment-variable admin page is unreachable for non-superusers
— whenever `currentUser?.is_superuser` is not true (flag false or user not yet
loaded) the route component renders null; once a non-superuser is loaded the
effect replaces the route with `/settings`; and the sidebar contains the
`/admin/env` link exactly when the loaded user is a superuser. -/
theorem admin_env_superuser_only (u : Option UserPublic) :
    (superuserLoaded u = false → adminEnvComponent u = .nullRender) ∧
    (∀ usr : UserPublic, u = some usr → usr.is_superuser = false →
      adminEnvEffect u = .replaceTo "/settings") ∧
    ((∃ it ∈ finalItems u, it.path = "/admin/env") ↔ superuserLoaded u = true) := by
  refine ⟨?_, ?_, ?_⟩
  · intro h; simp [adminEnvComponent, h]
  · rintro usr rfl h; simp [adminEnvEffect, h]
  · cases u with
    | none => decide
    | some usr =>
      cases usr with
      | mk b => cases b <;> decide

theorem admin_env_superuser_only_witness :
    adminEnvComponent (some ⟨false⟩) = .nullRender ∧
    adminEnvEffect (some ⟨false⟩) = .replaceTo "/settings" := by
  have h := admin_env_superuser_only (some ⟨false⟩)
  exact ⟨h.1 (by decide), h.2.1 ⟨false⟩ rfl rfl⟩

end FullStack
